/-
Verification of the batch ETL pipeline (JSONL → CSV conversion and
ClickHouse ingestion) against its natural-language specification.

The development shallowly embeds the two Python modules:
  * `convert_jsonl_to_csv.py` — record reader, record normalizer
    (`clean_and_flatten_record`), chunked CSV writer, CLI entry point;
  * `data_ingestion.py` — per-batch re-cast (`preprocess_dataframe`)
    and the load orchestrator (`ingest_data_to_clickhouse`).

Python's dynamically typed JSON values are modelled by the inductive
`Value`; Python floats by `PFloat` (exact rationals plus the IEEE
special values `inf`, `-inf`, `nan`; mantissa rounding of finite values
is elided because no verified property observes it, but the overflow
threshold of the int→float conversion is modelled exactly, since
`float(n)` raising `OverflowError` for a huge integer `n` is observable:
the source catches only `ValueError` and `TypeError`).
-/
import Mathlib

set_option autoImplicit false
set_option maxRecDepth 40000

namespace ETL

/-- Model of a Python float: an exact rational for finite values, plus
the IEEE special values. -/
inductive PFloat where
  | finite (q : ℚ)
  | inf
  | neginf
  | nan
deriving DecidableEq, Repr

/-- Model of a JSON-decoded Python value (`json.loads` output):
`None`, `bool`, `int` (arbitrary precision), `float`, `str`, `list`,
`dict` (JSON object keys are strings). -/
inductive Value where
  | vnone
  | vbool (b : Bool)
  | vint (n : ℤ)
  | vfloat (f : PFloat)
  | vstr (s : String)
  | vlist (xs : List Value)
  | vdict (xs : List (String × Value))

/-- A raw record: the key/value mapping decoded from one JSONL line. -/
abbrev RawRecord := List (String × Value)

/-- Python truthiness (`bool(v)`): `None`/`False`/`0`/`0.0`/`""` and
empty containers are falsy, everything else (including `nan`) truthy. -/
def truthy : Value → Bool
  | .vnone => false
  | .vbool b => b
  | .vint n => n != 0
  | .vfloat (.finite q) => q != 0
  | .vfloat _ => true
  | .vstr s => s != ""
  | .vlist xs => !xs.isEmpty
  | .vdict xs => !xs.isEmpty

/-! ### `str()` / `repr()` model

Python's `str()` of a float uses the shortest round-tripping decimal;
we render a plain (possibly truncated) decimal expansion instead, and
elide scientific notation.  No verified property observes these digits:
the claims only ever compare the *outputs* of the embedded functions
with each other, so any fixed total rendering is adequate, and the
rendering below agrees with Python on the values the claims touch
(integral floats such as `4.0`). -/

/-- Decimal digits of the fractional part of `num/den` (at most `fuel`
digits, stopping when the remainder is zero). -/
def ratFracDigits (fuel : ℕ) (num den : ℕ) : String :=
  match fuel with
  | 0 => ""
  | fuel + 1 =>
    if num = 0 then ""
    else toString (num * 10 / den) ++ ratFracDigits fuel (num * 10 % den) den

/-- Model of `str(x)` for a Python float `x`. -/
def pyFloatStr : PFloat → String
  | .nan => "nan"
  | .inf => "inf"
  | .neginf => "-inf"
  | .finite q =>
    let sign := if q < 0 then "-" else ""
    let n := q.num.natAbs
    let fr := n % q.den
    sign ++ toString (n / q.den) ++ "." ++
      (if fr = 0 then "0" else ratFracDigits 17 fr q.den)

/-- The single-quote character (written via its code point). -/
def squoteChar : Char := Char.ofNat 39

/-- The double-quote character. -/
def dquoteChar : Char := Char.ofNat 34

/-- One character of Python `repr()` of a string, given the chosen
quote character `qc`.  Hex escapes of other control characters are
elided (no verified property observes them). -/
def pyReprEscChar (qc : Char) (c : Char) : String :=
  if c = '\\' then "\\\\"
  else if c = qc then "\\" ++ String.mk [qc]
  else if c = '\n' then "\\n"
  else if c = '\r' then "\\r"
  else if c = '\t' then "\\t"
  else String.mk [c]

/-- Model of Python `repr()` of a string: single-quoted, unless the
string contains a single quote and no double quote. -/
def pyReprStr (s : String) : String :=
  let qc := if s.data.contains squoteChar && !(s.data.contains dquoteChar)
            then dquoteChar else squoteChar
  String.mk [qc] ++ String.join (s.data.map (pyReprEscChar qc)) ++ String.mk [qc]

mutual
/-- Model of Python `repr(v)` for a JSON-decoded value. -/
def pyRepr : Value → String
  | .vnone => "None"
  | .vbool b => if b then "True" else "False"
  | .vint n => toString n
  | .vfloat f => pyFloatStr f
  | .vstr s => pyReprStr s
  | .vlist xs => "[" ++ pyReprInner xs ++ "]"
  | .vdict xs => "\x7b" ++ pyReprPairs xs ++ "\x7d"

/-- `repr` of the comma-separated elements of a list. -/
def pyReprInner : List Value → String
  | [] => ""
  | [x] => pyRepr x
  | x :: y :: xs => pyRepr x ++ ", " ++ pyReprInner (y :: xs)

/-- `repr` of the comma-separated `key: value` pairs of a dict. -/
def pyReprPairs : List (String × Value) → String
  | [] => ""
  | [(k, v)] => pyReprStr k ++ ": " ++ pyRepr v
  | (k, v) :: p :: xs => pyReprStr k ++ ": " ++ pyRepr v ++ ", " ++ pyReprPairs (p :: xs)
end

/-- Model of Python `str(v)`: the string itself for strings, `repr`
otherwise (scalars print as `None`/`True`/`False`/digits). -/
def pyStr : Value → String
  | .vstr s => s
  | v => pyRepr v

/-- Model of `s.lower()` (ASCII case folding; Python's Unicode case
folding beyond ASCII is elided). -/
def pyLower (s : String) : String :=
  String.mk (s.data.map Char.toLower)

/-- One character of JSON string escaping for `json.dumps`
(`\uXXXX` escapes of other control characters elided). -/
def jsonEscChar (c : Char) : String :=
  if c = '\\' then "\\\\"
  else if c = dquoteChar then "\\" ++ String.mk [dquoteChar]
  else if c = '\n' then "\\n"
  else if c = '\r' then "\\r"
  else if c = '\t' then "\\t"
  else String.mk [c]

/-- JSON string literal produced by `json.dumps`. -/
def jsonQuote (s : String) : String :=
  String.mk [dquoteChar] ++ String.join (s.data.map jsonEscChar) ++ String.mk [dquoteChar]

mutual
/-- Model of `json.dumps(v)` with default separators. -/
def jsonDumps : Value → String
  | .vnone => "null"
  | .vbool b => if b then "true" else "false"
  | .vint n => toString n
  | .vfloat f => pyFloatStr f
  | .vstr s => jsonQuote s
  | .vlist xs => "[" ++ jsonDumpsInner xs ++ "]"
  | .vdict xs => "\x7b" ++ jsonDumpsPairs xs ++ "\x7d"

/-- `json.dumps` of the comma-separated elements of a list. -/
def jsonDumpsInner : List Value → String
  | [] => ""
  | [x] => jsonDumps x
  | x :: y :: xs => jsonDumps x ++ ", " ++ jsonDumpsInner (y :: xs)

/-- `json.dumps` of the comma-separated `"key": value` pairs. -/
def jsonDumpsPairs : List (String × Value) → String
  | [] => ""
  | [(k, v)] => jsonQuote k ++ ": " ++ jsonDumps v
  | (k, v) :: p :: xs => jsonQuote k ++ ": " ++ jsonDumps v ++ ", " ++ jsonDumpsPairs (p :: xs)
end

/-! ### Whitespace handling

`str.strip()` / `str.split()` treat any ASCII whitespace character as a
separator (Unicode whitespace beyond ASCII is elided). -/

/-- The ASCII whitespace characters recognized by Python's `strip` and
`split`: space, tab, newline, carriage return, vertical tab, form feed. -/
def isPySpace (c : Char) : Bool :=
  c == ' ' || c == '\t' || c == '\n' || c == '\r' || c == '\x0b' || c == '\x0c'

/-- Model of `line.strip()` on the character list. -/
def pyStripChars (l : List Char) : List Char :=
  ((l.dropWhile isPySpace).reverse.dropWhile isPySpace).reverse

/-- Model of `line.strip()`. -/
def pyStrip (s : String) : String :=
  String.mk (pyStripChars s.data)

/-- `s.replace(chr(10), " ").replace(chr(13), " ")`: both replacements of a
single character by a single character fuse into one character map. -/
def replaceNlCr (l : List Char) : List Char :=
  l.map fun c => if c = '\n' || c = '\r' then ' ' else c

/-- Worker for `s.split()`: `acc` holds the (reversed) current token. -/
def splitWsAux (acc : List Char) : List Char → List (List Char)
  | [] => if acc.isEmpty then [] else [acc.reverse]
  | c :: cs =>
    if isPySpace c then
      if acc.isEmpty then splitWsAux [] cs
      else acc.reverse :: splitWsAux [] cs
    else splitWsAux (c :: acc) cs

/-- Model of `s.split()` (split on runs of whitespace, dropping empty
tokens). -/
def splitWs (l : List Char) : List (List Char) :=
  splitWsAux [] l

/-- Model of `" ".join(tokens)`. -/
def joinTokens : List (List Char) → List Char
  | [] => []
  | [t] => t
  | t :: u :: ts => t ++ ' ' :: joinTokens (u :: ts)

/-- The text-field sanitizer of `clean_and_flatten_record`:
`" ".join(s.replace(chr(10), " ").replace(chr(13), " ").split())`. -/
def cleanText (s : String) : String :=
  String.mk (joinTokens (splitWs (replaceNlCr s.data)))

/-- `true` iff the list contains two consecutive space characters
(a "run of 2+ spaces"). -/
def hasDoubleSpace : List Char → Bool
  | c :: d :: cs => (c == ' ' && d == ' ') || hasDoubleSpace (d :: cs)
  | _ => false

/-! ### Numeric coercions

Models of Python's `float(x)` / `int(x)` builtins on JSON-decoded
values.  Error taxonomy matters: `clean_and_flatten_record` catches
only `ValueError` and `TypeError`, so an `OverflowError` (raised by
`float(n)` for an integer too large for a double, and by `int(f)` for
an infinite float) escapes the normalizer.  The overflow threshold is
exact: `float(n)` overflows iff `|n|` rounds beyond the largest double,
i.e. iff `|n| ≥ 2^1024 - 2^970` (the midpoint above the largest finite
double, which ties-to-even rounds up to `2^1024`).  Rounding of finite
values to 53-bit mantissas is elided: no verified property observes a
coerced finite value other than the exact defaults.  Underscore
grouping in numeric literals accepted by `float`/`int` is elided; both
the model and the source then take a `ValueError` path that is caught
and degraded to the default, so no claim can observe the difference. -/

/-- Python exception classes relevant to the pipeline. -/
inductive PyErr where
  | valueError
  | typeError
  | overflowError
deriving DecidableEq

/-- Smallest integer magnitude on which `float(n)` raises
`OverflowError`. -/
def floatOverflowBound : ℕ := 2 ^ 1024 - 2 ^ 970

/-- Numeric value of a list of decimal digit characters. -/
def natOfValidDigits (l : List Char) : ℕ :=
  l.foldl (fun a c => 10 * a + (c.toNat - 48)) 0

/-- Parse a nonempty all-digit string as a natural number. -/
def natOfDigits (l : List Char) : Option ℕ :=
  if l.isEmpty || l.any (fun c => !c.isDigit) then none
  else some (natOfValidDigits l)

/-- Model of `int(s)` for a string `s`: optional surrounding
whitespace, optional sign, then decimal digits. -/
def parseIntStr (s : String) : Option ℤ :=
  match pyStripChars s.data with
  | '-' :: rest => (natOfDigits rest).map fun n => -(n : ℤ)
  | '+' :: rest => (natOfDigits rest).map fun n => (n : ℤ)
  | l => (natOfDigits l).map fun n => (n : ℤ)

/-- Parse the mantissa `digits [. digits]` of a float literal,
returning its digit string as a natural number, the number of
fractional digits, and the unconsumed remainder; at least one digit
must be present. -/
def parseMantissa (l : List Char) : Option ((ℕ × ℕ) × List Char) :=
  let ip := l.takeWhile Char.isDigit
  let rest := l.dropWhile Char.isDigit
  match rest with
  | '.' :: rest2 =>
    let fp := rest2.takeWhile Char.isDigit
    let rest3 := rest2.dropWhile Char.isDigit
    if ip.isEmpty && fp.isEmpty then none
    else some ((natOfValidDigits (ip ++ fp), fp.length), rest3)
  | _ =>
    if ip.isEmpty then none else some ((natOfValidDigits ip, 0), rest)

/-- Parse the signed decimal exponent after `e`/`E`. -/
def parseExp (l : List Char) : Option ℤ :=
  match l with
  | '+' :: r => (natOfDigits r).map fun n => (n : ℤ)
  | '-' :: r => (natOfDigits r).map fun n => -(n : ℤ)
  | r => (natOfDigits r).map fun n => (n : ℤ)

/-- The float produced by a parsed literal with digit value `m`,
`fracLen` fractional digits, decimal exponent `e` and sign `neg`: the
exact rational `± m·10^e / 10^fracLen`, saturating to an infinity at
the double-overflow threshold (string→float conversion never raises on
overflow).  The rational is assembled with `mkRat` directly. -/
def floatOfParts (neg : Bool) (m fracLen : ℕ) (e : ℤ) : PFloat :=
  let num : ℤ := (m * 10 ^ e.toNat : ℕ)
  let den : ℕ := 10 ^ (fracLen + (-e).toNat)
  let mag : ℚ := mkRat num den
  if (floatOverflowBound : ℚ) ≤ mag then (if neg then .neginf else .inf)
  else .finite (if neg then mkRat (-num) den else mag)

/-- Digit value, fractional length and exponent of an unsigned float
literal `digits [. digits] [e [sign] digits]`. -/
def parseFloatMag (l : List Char) : Option (ℕ × ℕ × ℤ) :=
  match parseMantissa l with
  | none => none
  | some ((m, fracLen), rest) =>
    match rest with
    | [] => some (m, fracLen, 0)
    | 'e' :: r => (parseExp r).map fun e => (m, fracLen, e)
    | _ => none

/-- Model of `float(s)` for a string `s`: strips whitespace, accepts an
optional sign, the words `inf`/`infinity`/`nan` (case-insensitively),
or a decimal literal. -/
def parseFloatStr (s : String) : Option PFloat :=
  let l := (pyStripChars s.data).map Char.toLower
  let (neg, body) :=
    match l with
    | '-' :: r => (true, r)
    | '+' :: r => (false, r)
    | r => (false, r)
  if body = "inf".data || body = "infinity".data then
    some (if neg then .neginf else .inf)
  else if body = "nan".data then some .nan
  else
    match parseFloatMag body with
    | none => none
    | some (m, fracLen, e) => some (floatOfParts neg m fracLen e)

/-- Model of the builtin `float(v)`. -/
def pyFloatOfValue : Value → Except PyErr PFloat
  | .vstr s =>
    match parseFloatStr s with
    | some f => .ok f
    | none => .error .valueError
  | .vint n =>
    if floatOverflowBound ≤ n.natAbs then .error .overflowError
    else .ok (.finite (mkRat n 1))
  | .vfloat f => .ok f
  | .vbool b => .ok (.finite (if b then 1 else 0))
  | .vnone => .error .typeError
  | .vlist _ => .error .typeError
  | .vdict _ => .error .typeError

/-- Model of the builtin `int(v)` (floats truncate toward zero; `nan`
raises `ValueError`, infinities raise `OverflowError`). -/
def pyIntOfValue : Value → Except PyErr ℤ
  | .vstr s =>
    match parseIntStr s with
    | some n => .ok n
    | none => .error .valueError
  | .vint n => .ok n
  | .vfloat (.finite q) => .ok (Int.tdiv q.num (q.den : ℤ))
  | .vfloat .inf => .error .overflowError
  | .vfloat .neginf => .error .overflowError
  | .vfloat .nan => .error .valueError
  | .vbool b => .ok (if b then 1 else 0)
  | .vnone => .error .typeError
  | .vlist _ => .error .typeError
  | .vdict _ => .error .typeError

/-- Whether a fallible computation completed without raising. -/
def exOk {ε α : Type} : Except ε α → Bool
  | .ok _ => true
  | .error _ => false

/-- The `except (ValueError, TypeError)` handler around the numeric
conversions: those two exception classes degrade to the default `d`;
any other exception (in particular `OverflowError`) propagates. -/
def catchVT {α : Type} (r : Except PyErr α) (d : α) : Except PyErr α :=
  match r with
  | .error .valueError => .ok d
  | .error .typeError => .ok d
  | r => r

/-! ### The record normalizer (`clean_and_flatten_record`) -/

/-- `record.get(field, "")`: dictionary lookup with empty-string
default (JSON-decoded dicts have unique keys, so first-match lookup
is dict lookup). -/
def getField (record : RawRecord) (f : String) : Value :=
  (record.lookup f).getD (.vstr "")

/-- The `images` output: `json.dumps(images) if images else ""` when
the raw value is a dict (default `{}` when absent), otherwise
`str(images) if images else ""`. -/
def imagesField (record : RawRecord) : String :=
  match (record.lookup "images").getD (.vdict []) with
  | .vdict xs => if xs.isEmpty then "" else jsonDumps (.vdict xs)
  | v => if truthy v then pyStr v else ""

/-- The `vote` output: `str(vote) if vote else ""`. -/
def voteField (record : RawRecord) : String :=
  let v := getField record "vote"
  if truthy v then pyStr v else ""

/-- Text-field pass: truthy values are stringified and sanitized,
falsy values (including the empty-string default) are left unchanged. -/
def cleanTextValue (v : Value) : Value :=
  if truthy v then .vstr (cleanText (pyStr v)) else v

/-- The truthy set of the `verified` coercion:
`str(x).lower() in ["true", "1", "yes"]`. -/
def verifiedTruthySet : List String := ["true", "1", "yes"]

/-- The fixed-schema flat record produced by the normalizer.  The
fields that receive no type coercion in the source keep whatever raw
value the record held (`Value`); `overall`, `verified` and
`unixReviewTime` are coerced, and `images`/`vote` are always strings. -/
structure NormalizedRecord where
  overall : PFloat
  verified : Bool
  reviewTime : Value
  reviewerID : Value
  asin : Value
  style : Value
  reviewerName : Value
  reviewText : Value
  summary : Value
  unixReviewTime : ℤ
  images : String
  vote : String

/-- `float(cleaned["overall"]) if cleaned["overall"] else 0.0`
(before the exception handler). -/
def overallStep (record : RawRecord) : Except PyErr PFloat :=
  let v := getField record "overall"
  if truthy v then pyFloatOfValue v else .ok (.finite 0)

/-- `int(cleaned["unixReviewTime"]) if cleaned["unixReviewTime"] else 0`
(before the exception handler). -/
def unixStep (record : RawRecord) : Except PyErr ℤ :=
  let v := getField record "unixReviewTime"
  if truthy v then pyIntOfValue v else .ok 0

/-- The successfully-normalized record, given the results of the two
numeric coercions. -/
def cleanFields (record : RawRecord) (overall : PFloat) (unix : ℤ) :
    NormalizedRecord where
  overall := overall
  verified := verifiedTruthySet.contains (pyLower (pyStr (getField record "verified")))
  reviewTime := getField record "reviewTime"
  reviewerID := getField record "reviewerID"
  asin := getField record "asin"
  style := getField record "style"
  reviewerName := cleanTextValue (getField record "reviewerName")
  reviewText := cleanTextValue (getField record "reviewText")
  summary := cleanTextValue (getField record "summary")
  unixReviewTime := unix
  images := imagesField record
  vote := voteField record

/-- Model of `clean_and_flatten_record`.  The only fallible steps are
the two numeric coercions: their `ValueError`/`TypeError` are caught
and degraded to `0.0` / `0`, while other exceptions propagate (the
`overall` conversion runs first, as in the source). -/
def cleanAndFlattenRecord (record : RawRecord) : Except PyErr NormalizedRecord :=
  match catchVT (overallStep record) (.finite 0) with
  | .error e => .error e
  | .ok overall =>
    match catchVT (unixStep record) 0 with
    | .error e => .error e
    | .ok unix => .ok (cleanFields record overall unix)

/-! ### The record reader (`read_jsonl_file`)

The reader strips each line, skips blank lines, and tries
`json.loads`; a `JSONDecodeError` is logged as a warning and the line
is skipped.  `json.loads` is external text parsing, so it enters the
embedding as a parameter `decode : String → Option RawRecord`
(`none` = `JSONDecodeError`).  The periodic progress log has no
behavioral effect and is not modelled.  The result pairs the yielded
records with the number of skipped-line warnings logged. -/

/-- The per-line loop of `read_jsonl_file`. -/
def readJsonlLoop (decode : String → Option RawRecord) :
    List String → List RawRecord × ℕ
  | [] => ([], 0)
  | line :: rest =>
    let s := pyStrip line
    if s = "" then readJsonlLoop decode rest
    else
      match decode s with
      | some r =>
        let p := readJsonlLoop decode rest
        (r :: p.1, p.2)
      | none =>
        let p := readJsonlLoop decode rest
        (p.1, p.2 + 1)

/-! ### The chunked writer (`convert_jsonl_to_csv`) -/

/-- One `df_chunk.to_csv(...)` call: whether the header was written
(`header = chunk_count == 1`), whether the file was opened in append
mode (`mode = "a" if chunk_count > 1 else "w"`), and the rows
written. -/
structure WriteEvent (α : Type) where
  header : Bool
  append : Bool
  rows : List α

/-- The record loop of `convert_jsonl_to_csv`: accumulate records into
`chunkData`, flush whenever `chunk_size <= len(chunk_data)`, and flush
the final partial chunk after the loop. -/
def writeChunksGo {α : Type} (chunkSize : ℕ) :
    List α → List α → ℕ → List (WriteEvent α)
  | [], chunkData, chunkCount =>
    if chunkData.isEmpty then []
    else [⟨chunkCount + 1 == 1, 1 < chunkCount + 1, chunkData⟩]
  | r :: rest, chunkData, chunkCount =>
    let cd := chunkData ++ [r]
    if chunkSize ≤ cd.length then
      ⟨chunkCount + 1 == 1, 1 < chunkCount + 1, cd⟩ ::
        writeChunksGo chunkSize rest [] (chunkCount + 1)
    else
      writeChunksGo chunkSize rest cd chunkCount

/-- The sequence of `to_csv` calls made when writing `records` in
chunks of `chunkSize`. -/
def writeChunks {α : Type} (records : List α) (chunkSize : ℕ) :
    List (WriteEvent α) :=
  writeChunksGo chunkSize records [] 0

/-- Normalize every record in order, propagating the first
exception. -/
def cleanRecords : List RawRecord → Except PyErr (List NormalizedRecord)
  | [] => .ok []
  | r :: rs =>
    match cleanAndFlattenRecord r with
    | .error e => .error e
    | .ok nr =>
      match cleanRecords rs with
      | .error e => .error e
      | .ok nrs => .ok (nr :: nrs)

/-- Model of `convert_jsonl_to_csv`: read, normalize each record, and
write in chunks; returns the write events and `total_records`.  The
source interleaves normalization with writing, but an exception during
normalization aborts the run before any summary is produced, and no
claim observes the partial writes of an aborted run, so normalizing
first is observationally equivalent here. -/
def convertJsonlToCsv (decode : String → Option RawRecord)
    (lines : List String) (chunkSize : ℕ) :
    Except PyErr (List (WriteEvent NormalizedRecord) × ℕ) :=
  match cleanRecords (readJsonlLoop decode lines).1 with
  | .error e => .error e
  | .ok cleaned =>
    let ws := writeChunks cleaned chunkSize
    .ok (ws, (ws.map fun e => e.rows.length).sum)

/-- Model of the CLI entry point `main`: exit code 1 when the input
file is missing or the conversion raises, 0 on success. -/
def mainModel (inputExists : Bool) (decode : String → Option RawRecord)
    (lines : List String) (chunkSize : ℕ) : ℕ :=
  if !inputExists then 1
  else
    match convertJsonlToCsv decode lines chunkSize with
    | .ok _ => 0
    | .error _ => 1

/-! ### The load-side re-cast (`preprocess_dataframe`)

A pandas DataFrame batch is modelled as an association list of named
columns of cells; `Cell.cnan` is the missing-value marker `NaN`. -/

/-- One cell of a DataFrame column. -/
inductive Cell where
  | cnan
  | cbool (b : Bool)
  | cint (n : ℤ)
  | cfloat (q : ℚ)
  | cinf
  | cneginf
  | cstr (s : String)
deriving DecidableEq

/-- A DataFrame batch: named columns of equal length. -/
abbrev Frame := List (String × List Cell)

/-- The string columns given null→empty-string substitution. -/
def stringCols : List String :=
  ["title", "text", "images", "asin", "parent_asin", "user_id"]

/-- The columns coerced with `pd.to_numeric(..., errors="coerce")`. -/
def numericCols : List String := ["rating", "timestamp", "helpful_vote"]

/-- `fillna("")`: replace the missing marker by the empty string. -/
def fillnaEmptyStr : Cell → Cell
  | .cnan => .cstr ""
  | c => c

/-- `str()` of one cell (for `astype(str)`). -/
def cellStr : Cell → String
  | .cnan => "nan"
  | .cbool b => if b then "True" else "False"
  | .cint n => toString n
  | .cfloat q => pyFloatStr (.finite q)
  | .cinf => "inf"
  | .cneginf => "-inf"
  | .cstr s => s

/-- `astype(int)` on one cell: booleans become 0/1, floats truncate,
non-finite values and non-integer-literal strings raise `ValueError`
(pandas: "Cannot convert non-finite values (NA or inf) to integer"). -/
def astypeIntCell : Cell → Except PyErr ℤ
  | .cbool b => .ok (if b then 1 else 0)
  | .cint n => .ok n
  | .cfloat q => .ok (Int.tdiv q.num (q.den : ℤ))
  | .cnan => .error .valueError
  | .cinf => .error .valueError
  | .cneginf => .error .valueError
  | .cstr s =>
    match parseIntStr s with
    | some n => .ok n
    | none => .error .valueError

/-- `pd.to_numeric(x, errors="coerce")` on one cell: numbers pass
through, booleans become 0/1, parsable strings become numbers, and
anything unparsable becomes `NaN`. -/
def toNumericCoerce : Cell → Cell
  | .cnan => .cnan
  | .cbool b => .cint (if b then 1 else 0)
  | .cint n => .cint n
  | .cfloat q => .cfloat q
  | .cinf => .cinf
  | .cneginf => .cneginf
  | .cstr s =>
    match parseIntStr s with
    | some n => .cint n
    | none =>
      match parseFloatStr s with
      | some (.finite q) => .cfloat q
      | some .inf => .cinf
      | some .neginf => .cneginf
      | some .nan => .cnan
      | none => .cnan

/-- `pd.to_numeric(x, errors="coerce").fillna(0)` on one cell. -/
def toNumericFillZero (c : Cell) : Cell :=
  match toNumericCoerce c with
  | .cnan => .cint 0
  | c => c

/-- `astype(int)` over a whole column, propagating the first
`ValueError`. -/
def astypeIntCol : List Cell → Except PyErr (List ℤ)
  | [] => .ok []
  | c :: cs =>
    match astypeIntCell c with
    | .error e => .error e
    | .ok n =>
      match astypeIntCol cs with
      | .error e => .error e
      | .ok ns => .ok (n :: ns)

/-- The per-column action of `preprocess_dataframe` (columns absent
from the three name lists are untouched; the `if col in df.columns`
guards make the column lists act by name). -/
def transformCol (name : String) (col : List Cell) : Except PyErr (List Cell) :=
  if stringCols.contains name then
    .ok (col.map fun c => .cstr (cellStr (fillnaEmptyStr c)))
  else if name = "verified_purchase" then
    match astypeIntCol col with
    | .error e => .error e
    | .ok ns => .ok (ns.map Cell.cint)
  else if numericCols.contains name then
    .ok (col.map toNumericFillZero)
  else
    .ok col

/-- Model of `preprocess_dataframe`.  In the source the string columns
are transformed first, then `verified_purchase`, then the numeric
columns; only the `verified_purchase` cast can raise, so transforming
in column order produces the same result and the same error. -/
def preprocessFrame : Frame → Except PyErr Frame
  | [] => .ok []
  | (name, col) :: rest =>
    match transformCol name col with
    | .error e => .error e
    | .ok col' =>
      match preprocessFrame rest with
      | .error e => .error e
      | .ok rest' => .ok ((name, col') :: rest')

/-- `len(df)`: the number of rows of a batch (the common column
length). -/
def frameRows : Frame → ℕ
  | [] => 0
  | (_, col) :: _ => col.length

/-! ### The load orchestrator (`ingest_data_to_clickhouse`)

The sink (`clickhouse.sql_write`) is an external collaborator; whether
the `batch_count`-th bulk insert succeeds enters the embedding as an
oracle `insertOk : ℕ → Bool`.  The sink's committed contents are the
list of successfully inserted (preprocessed) batches, appended in
submission order. -/

/-- Outcome of one run of the load orchestrator. -/
structure IngestResult where
  /-- Batches committed to the sink, in submission order. -/
  sink : List Frame
  /-- Number of batches submitted to the sink (including a final
  failed submission). -/
  submitted : ℕ
  /-- `.ok totalRows`, or `.error (batchIndex, batchRows)` — the
  batch index and size logged before the error is re-raised. -/
  outcome : Except (ℕ × ℕ) ℕ

/-- The per-batch loop of `ingest_data_to_clickhouse`. -/
def ingestGo (insertOk : ℕ → Bool) :
    List Frame → ℕ → ℕ → ℕ → List Frame → IngestResult
  | [], _, submitted, rows, sink => ⟨sink, submitted, .ok rows⟩
  | b :: rest, batchCount, submitted, rows, sink =>
    let bc := batchCount + 1
    match preprocessFrame b with
    | .error _ => ⟨sink, submitted, .error (bc, frameRows b)⟩
    | .ok pb =>
      if insertOk bc then
        ingestGo insertOk rest bc (submitted + 1) (rows + frameRows pb) (sink ++ [pb])
      else
        ⟨sink, submitted + 1, .error (bc, frameRows pb)⟩

/-- Model of `ingest_data_to_clickhouse` on the batch sequence
produced by `pd.read_csv(..., chunksize=batch_size)`. -/
def ingestData (insertOk : ℕ → Bool) (batches : List Frame) : IngestResult :=
  ingestGo insertOk batches 0 0 0 []

/-- Total function extracting the preprocessed form of a batch (used
only to state properties; callers supply a proof that preprocessing
succeeded). -/
def preprocessedOf (f : Frame) : Frame :=
  match preprocessFrame f with
  | .ok pf => pf
  | .error _ => f

/-- A normalized record with all defaults (concrete input for
instantiating the chunked-writer property). -/
def sampleRecord : NormalizedRecord :=
  ⟨.finite 0, false, .vstr "", .vstr "", .vstr "", .vstr "", .vstr "", .vstr "",
    .vstr "", 0, "", ""⟩

/-! ## Lemmas about the record reader -/

/-- The reader loop yields exactly the decoded records of the
non-blank (after stripping) lines, in input order, and logs one
warning per undecodable non-blank line. -/
theorem readJsonlLoop_eq (decode : String → Option RawRecord) (lines : List String) :
    readJsonlLoop decode lines =
      ((((lines.map pyStrip).filter fun s => s != "").filterMap decode),
       (((lines.map pyStrip).filter fun s => s != "").filter
          fun s => (decode s).isNone).length) := by
  induction lines with
  | nil => rfl
  | cons l rest ih =>
    by_cases h : pyStrip l = ""
    · simp only [readJsonlLoop, h, if_pos, List.map_cons, List.filter_cons,
        bne_self_eq_false, Bool.false_eq_true, if_false, ih]
    · have hb : (pyStrip l != "") = true := bne_iff_ne.mpr h
      cases hd : decode (pyStrip l) with
      | some r =>
        simp only [readJsonlLoop, h, if_false, hd, List.map_cons, List.filter_cons, hb,
          if_true, List.filterMap_cons, ih, Option.isNone_some, Bool.false_eq_true]
      | none =>
        simp only [readJsonlLoop, h, if_false, hd, List.map_cons, List.filter_cons, hb,
          if_true, List.filterMap_cons, ih, Option.isNone_none, List.length_cons]

/-! ## Lemmas about the normalizer -/

/-- A successful normalization is `cleanFields` applied to the results
of the two numeric coercion steps. -/
theorem clean_ok_elim {r : RawRecord} {nr : NormalizedRecord}
    (h : cleanAndFlattenRecord r = .ok nr) :
    ∃ ov ux, catchVT (overallStep r) (.finite 0) = .ok ov ∧
      catchVT (unixStep r) 0 = .ok ux ∧ nr = cleanFields r ov ux := by
  unfold cleanAndFlattenRecord at h
  cases h1 : catchVT (overallStep r) (.finite 0) with
  | error e => rw [h1] at h; exact absurd h (by simp)
  | ok ov =>
    rw [h1] at h
    cases h2 : catchVT (unixStep r) 0 with
    | error e => rw [h2] at h; exact absurd h (by simp)
    | ok ux =>
      rw [h2] at h
      exact ⟨ov, ux, rfl, rfl, (Except.ok.inj h).symm⟩

/-- When the rating field is absent the coercion step returns the
default `0.0`. -/
theorem overallStep_default {r : RawRecord} (h : r.lookup "overall" = none) :
    catchVT (overallStep r) (.finite 0) = .ok (.finite 0) := by
  unfold overallStep getField
  rw [h]
  rfl

/-- When the epoch-time field is absent the coercion step returns the
default `0`. -/
theorem unixStep_default {r : RawRecord} (h : r.lookup "unixReviewTime" = none) :
    catchVT (unixStep r) 0 = .ok 0 := by
  unfold unixStep getField
  rw [h]
  rfl

/-! ## Lemmas about the chunked writer -/

/-- Number of `to_csv` calls made by the writer loop: one per full
chunk plus one for a nonempty remainder. -/
theorem writeChunksGo_length {α : Type} {C : ℕ} (hC : 1 ≤ C) :
    ∀ (rs cd : List α) (cc : ℕ), cd.length < C →
      (writeChunksGo C rs cd cc).length = (rs.length + cd.length + (C - 1)) / C := by
  intro rs
  induction rs with
  | nil =>
    intro cd cc hcd
    cases cd with
    | nil =>
      simp only [writeChunksGo, List.isEmpty_nil, if_true, List.length_nil]
      exact (Nat.div_eq_of_lt (by omega)).symm
    | cons a l =>
      simp only [writeChunksGo, List.isEmpty_cons, Bool.false_eq_true, if_false,
        List.length_cons, List.length_singleton, List.length_nil]
      have h1 : 1 ≤ (a :: l).length := by simp
      rw [List.length_cons] at h1 hcd
      exact (Nat.div_eq_of_lt_le (by omega) (by omega)).symm
  | cons r rest ih =>
    intro cd cc hcd
    have hl : (cd ++ [r]).length = cd.length + 1 := by simp
    by_cases h : C ≤ (cd ++ [r]).length
    · rw [writeChunksGo, if_pos h, List.length_cons,
        ih [] (cc + 1) (by simpa using Nat.lt_of_lt_of_le Nat.zero_lt_one hC),
        List.length_nil, List.length_cons]
      rw [hl] at h
      have he : rest.length + 1 + cd.length + (C - 1) = rest.length + 0 + (C - 1) + C := by
        omega
      rw [he, Nat.add_div_right _ (by omega)]
    · rw [writeChunksGo, if_neg h, ih (cd ++ [r]) cc (by omega), List.length_cons, hl]
      congr 1
      omega

/-- Total rows across the writer's `to_csv` calls: every record is
written exactly once. -/
theorem writeChunksGo_sum {α : Type} (C : ℕ) :
    ∀ (rs cd : List α) (cc : ℕ),
      ((writeChunksGo C rs cd cc).map fun e => e.rows.length).sum =
        rs.length + cd.length := by
  intro rs
  induction rs with
  | nil =>
    intro cd cc
    cases cd with
    | nil => rfl
    | cons a l =>
      simp [writeChunksGo]
  | cons r rest ih =>
    intro cd cc
    have hl : (cd ++ [r]).length = cd.length + 1 := by simp
    by_cases h : C ≤ (cd ++ [r]).length
    · rw [writeChunksGo, if_pos h, List.map_cons, List.sum_cons, ih [] (cc + 1), hl,
        List.length_nil, List.length_cons]
      omega
    · rw [writeChunksGo, if_neg h, ih (cd ++ [r]) cc, hl, List.length_cons]
      omega

/-- The header/mode flags of the `i`-th `to_csv` call emitted by the
loop, given that `cc` chunks were emitted before entering it. -/
theorem writeChunksGo_getElem {α : Type} (C : ℕ) :
    ∀ (rs cd : List α) (cc i : ℕ) (e : WriteEvent α),
      (writeChunksGo C rs cd cc)[i]? = some e →
      e.header = (cc + i == 0) ∧ e.append = decide (0 < cc + i) := by
  intro rs
  induction rs with
  | nil =>
    intro cd cc i e h
    rw [writeChunksGo] at h
    by_cases hcd : cd.isEmpty
    · rw [if_pos hcd] at h
      simp at h
    · rw [if_neg hcd] at h
      cases i with
      | zero =>
        rw [List.getElem?_cons_zero] at h
        cases Option.some.inj h
        constructor
        · show (cc + 1 == 1) = (cc + 0 == 0)
          cases cc <;> rfl
        · show decide (1 < cc + 1) = decide (0 < cc + 0)
          rw [decide_eq_decide]
          omega
      | succ j =>
        rw [List.getElem?_cons_succ] at h
        simp at h
  | cons r rest ih =>
    intro cd cc i e h
    rw [writeChunksGo] at h
    by_cases hfull : C ≤ (cd ++ [r]).length
    · rw [if_pos hfull] at h
      cases i with
      | zero =>
        rw [List.getElem?_cons_zero] at h
        cases Option.some.inj h
        constructor
        · show (cc + 1 == 1) = (cc + 0 == 0)
          cases cc <;> rfl
        · show decide (1 < cc + 1) = decide (0 < cc + 0)
          rw [decide_eq_decide]
          omega
      | succ j =>
        rw [List.getElem?_cons_succ] at h
        obtain ⟨h1, h2⟩ := ih [] (cc + 1) j e h
        constructor
        · rw [h1]
          show (cc + 1 + j == 0) = (cc + (j + 1) == 0)
          congr 1
          omega
        · rw [h2, decide_eq_decide]
          omega
    · rw [if_neg hfull] at h
      exact ih (cd ++ [r]) cc i e h

/-! ## Lemmas about the text sanitizer -/

/-- Every token produced by `split()` is nonempty and free of
whitespace characters. -/
theorem mem_splitWsAux {t : List Char} :
    ∀ {l acc : List Char}, (∀ c ∈ acc, isPySpace c = false) → t ∈ splitWsAux acc l →
      t ≠ [] ∧ ∀ c ∈ t, isPySpace c = false := by
  intro l
  induction l with
  | nil =>
    intro acc hacc ht
    unfold splitWsAux at ht
    by_cases h : acc.isEmpty
    · rw [if_pos h] at ht
      simp at ht
    · rw [if_neg h] at ht
      rw [List.mem_singleton] at ht
      subst ht
      refine ⟨fun hrev => h ?_, fun c hc => hacc c (List.mem_reverse.mp hc)⟩
      rw [List.isEmpty_iff, ← List.reverse_eq_nil_iff, hrev]
  | cons c cs ih =>
    intro acc hacc ht
    unfold splitWsAux at ht
    cases hsp : isPySpace c with
    | true =>
      rw [hsp] at ht
      simp only [if_true] at ht
      by_cases he : acc.isEmpty
      · rw [if_pos he] at ht
        exact ih (by simp) ht
      · rw [if_neg he] at ht
        rcases List.mem_cons.mp ht with h1 | h2
        · subst h1
          refine ⟨fun hrev => he ?_, fun d hd => hacc d (List.mem_reverse.mp hd)⟩
          rw [List.isEmpty_iff, ← List.reverse_eq_nil_iff, hrev]
        · exact ih (by simp) h2
    | false =>
      rw [hsp] at ht
      simp only [Bool.false_eq_true, if_false] at ht
      refine ih ?_ ht
      intro d hd
      rcases List.mem_cons.mp hd with h1 | h2
      · subst h1; exact hsp
      · exact hacc d h2

/-- `split()` of an all-whitespace list yields no tokens. -/
theorem splitWsAux_all_space :
    ∀ {l : List Char}, (∀ c ∈ l, isPySpace c = true) → splitWsAux [] l = [] := by
  intro l
  induction l with
  | nil => intro _; rfl
  | cons c cs ih =>
    intro h
    unfold splitWsAux
    rw [h c (List.mem_cons_self c cs)]
    simp only [if_true, List.isEmpty_nil]
    exact ih fun d hd => h d (List.mem_cons_of_mem c hd)

/-- Prepending a space-free list does not create a double space. -/
theorem hasDoubleSpace_append {r : List Char} :
    ∀ {t : List Char}, (∀ c ∈ t, (c == ' ') = false) →
      hasDoubleSpace (t ++ r) = hasDoubleSpace r := by
  intro t
  induction t with
  | nil => intro _; rfl
  | cons c t' ih =>
    intro h
    have hc : (c == ' ') = false := h c (List.mem_cons_self c t')
    cases htr : t' ++ r with
    | nil =>
      obtain ⟨ht', hr⟩ := List.append_eq_nil.mp htr
      subst hr
      show hasDoubleSpace (c :: (t' ++ [])) = hasDoubleSpace []
      rw [htr]
      rfl
    | cons d ds =>
      show hasDoubleSpace (c :: (t' ++ r)) = hasDoubleSpace r
      rw [htr]
      show ((c == ' ' && d == ' ') || hasDoubleSpace (d :: ds)) = hasDoubleSpace r
      rw [hc, Bool.false_and, Bool.false_or, ← htr]
      exact ih fun d hd => h d (List.mem_cons_of_mem c hd)

/-- A space-free list has no double space. -/
theorem hasDoubleSpace_of_spacefree {t : List Char}
    (h : ∀ c ∈ t, (c == ' ') = false) : hasDoubleSpace t = false := by
  have := hasDoubleSpace_append (r := []) h
  rwa [List.append_nil] at this

/-- Joining nonempty tokens yields a nonempty list. -/
theorem joinTokens_ne_nil :
    ∀ {ts : List (List Char)}, ts ≠ [] → (∀ t ∈ ts, t ≠ []) →
      joinTokens ts ≠ [] := by
  intro ts
  match ts with
  | [] => intro h _; exact absurd rfl h
  | [t] => intro _ hne; exact hne t (List.mem_singleton_self t)
  | t :: u :: ts2 =>
    intro _ hne
    show t ++ ' ' :: joinTokens (u :: ts2) ≠ []
    simp

/-- A whitespace-free character is not a space (Boolean form). -/
theorem beq_space_false_of_not_space {c : Char} (h : isPySpace c = false) :
    (c == ' ') = false := by
  by_contra hcontra
  rw [Bool.not_eq_false, beq_iff_eq] at hcontra
  subst hcontra
  exact absurd h (by simp [isPySpace])

/-- Shape of `" ".join(tokens)` for nonempty whitespace-free tokens:
all whitespace in it is a single space, it has no double space, and it
neither starts nor ends with a space. -/
theorem joinTokens_shape :
    ∀ {ts : List (List Char)},
      (∀ t ∈ ts, t ≠ [] ∧ ∀ c ∈ t, isPySpace c = false) →
      (∀ c ∈ joinTokens ts, isPySpace c = true → c = ' ') ∧
      hasDoubleSpace (joinTokens ts) = false ∧
      (joinTokens ts).head? ≠ some ' ' ∧
      (joinTokens ts).getLast? ≠ some ' ' := by
  intro ts
  match ts with
  | [] => intro _; refine ⟨by simp [joinTokens], rfl, by simp [joinTokens], by simp [joinTokens]⟩
  | [t] =>
    intro hok
    obtain ⟨hne, hsp⟩ := hok t (List.mem_singleton_self t)
    show (∀ c ∈ t, _) ∧ hasDoubleSpace t = false ∧ t.head? ≠ some ' ' ∧ t.getLast? ≠ some ' '
    refine ⟨fun c hc htrue => absurd (hsp c hc) (by rw [htrue]; simp),
      hasDoubleSpace_of_spacefree fun c hc => beq_space_false_of_not_space (hsp c hc),
      ?_, ?_⟩
    · intro hh
      have : ' ' ∈ t := by
        cases t with
        | nil => simp at hh
        | cons a l =>
          rw [List.head?_cons] at hh
          cases Option.some.inj hh
          exact List.mem_cons_self _ _
      exact absurd (hsp ' ' this) (by simp [isPySpace])
    · intro hh
      obtain ⟨hne2, heq⟩ := List.mem_getLast?_eq_getLast (Option.mem_def.mpr hh)
      have : ' ' ∈ t := heq ▸ List.getLast_mem hne2
      exact absurd (hsp ' ' this) (by simp [isPySpace])
  | t :: u :: ts2 =>
    intro hok
    obtain ⟨hne, hsp⟩ := hok t (List.mem_cons_self _ _)
    have hok2 : ∀ v ∈ u :: ts2, v ≠ [] ∧ ∀ c ∈ v, isPySpace c = false :=
      fun v hv => hok v (List.mem_cons_of_mem t hv)
    obtain ⟨ih1, ih2, ih3, ih4⟩ := joinTokens_shape hok2
    have hjne : joinTokens (u :: ts2) ≠ [] :=
      joinTokens_ne_nil (by simp) fun v hv => (hok2 v hv).1
    show (∀ c ∈ t ++ ' ' :: joinTokens (u :: ts2), _) ∧
      hasDoubleSpace (t ++ ' ' :: joinTokens (u :: ts2)) = false ∧
      (t ++ ' ' :: joinTokens (u :: ts2)).head? ≠ some ' ' ∧
      (t ++ ' ' :: joinTokens (u :: ts2)).getLast? ≠ some ' '
    refine ⟨?_, ?_, ?_, ?_⟩
    · intro c hc htrue
      rcases List.mem_append.mp hc with h1 | h2
      · exact absurd (hsp c h1) (by rw [htrue]; simp)
      · rcases List.mem_cons.mp h2 with h3 | h4
        · exact h3
        · exact ih1 c h4 htrue
    · rw [hasDoubleSpace_append fun c hc => beq_space_false_of_not_space (hsp c hc)]
      cases hj : joinTokens (u :: ts2) with
      | nil => exact absurd hj hjne
      | cons d ds =>
        show ((' ' == ' ' && d == ' ') || hasDoubleSpace (d :: ds)) = false
        have hd : d ≠ ' ' := by
          intro hd
          subst hd
          rw [hj, List.head?_cons] at ih3
          exact ih3 rfl
        rw [← hj, ih2]
        simp [hd]
    · cases t with
      | nil => exact absurd rfl hne
      | cons a l =>
        rw [List.cons_append, List.head?_cons]
        intro hh
        cases Option.some.inj hh
        exact absurd (hsp ' ' (List.mem_cons_self _ _)) (by simp [isPySpace])
    · rw [List.getLast?_append_cons]
      cases hj : joinTokens (u :: ts2) with
      | nil => exact absurd hj hjne
      | cons d ds =>
        rw [List.getLast?_cons_cons, ← hj]
        exact ih4

/-- The full shape of the sanitized text: only single spaces as
whitespace, no double space, no leading or trailing space. -/
theorem cleanText_shape (s : String) :
    (∀ c ∈ (cleanText s).data, isPySpace c = true → c = ' ') ∧
    hasDoubleSpace (cleanText s).data = false ∧
    (cleanText s).data.head? ≠ some ' ' ∧
    (cleanText s).data.getLast? ≠ some ' ' := by
  have hok : ∀ t ∈ splitWs (replaceNlCr s.data), t ≠ [] ∧ ∀ c ∈ t, isPySpace c = false :=
    fun t ht => mem_splitWsAux (by simp) ht
  exact joinTokens_shape hok

/-- Sanitizing an all-whitespace string yields the empty string. -/
theorem cleanText_all_space {s : String}
    (h : ∀ c ∈ s.data, isPySpace c = true) : cleanText s = "" := by
  have hrep : ∀ c ∈ replaceNlCr s.data, isPySpace c = true := by
    intro c hc
    rcases List.mem_map.mp hc with ⟨d, hd, hdc⟩
    subst hdc
    show isPySpace (if d = '\n' || d = '\r' then ' ' else d) = true
    split
    · rfl
    · exact h d hd
  unfold cleanText splitWs
  rw [splitWsAux_all_space hrep]
  rfl

/-! ## Lemmas about the load-side re-cast and the orchestrator -/

/-- `exOk` means a successful result exists. -/
theorem exOk_iff_exists {ε α : Type} {r : Except ε α} :
    exOk r = true ↔ ∃ a, r = .ok a := by
  cases r with
  | ok a => simp [exOk]
  | error e => simp [exOk]

/-- The column-wide integer cast succeeds iff every cell converts. -/
theorem astypeIntCol_ok_iff (col : List Cell) :
    exOk (astypeIntCol col) = true ↔ ∀ c ∈ col, exOk (astypeIntCell c) = true := by
  induction col with
  | nil => simp [astypeIntCol, exOk]
  | cons c cs ih =>
    unfold astypeIntCol
    cases hc : astypeIntCell c with
    | error e => simp [exOk, hc]
    | ok n =>
      cases hcs : astypeIntCol cs with
      | error e =>
        rw [hcs] at ih
        simp only [exOk, Bool.false_eq_true, false_iff] at ih ⊢
        intro hall
        exact ih fun d hd => hall d (List.mem_cons_of_mem c hd)
      | ok ns =>
        rw [hcs] at ih
        simp only [exOk, true_iff] at ih
        simp only [exOk, true_iff]
        intro d hd
        rcases List.mem_cons.mp hd with h1 | h2
        · subst h1; simp [exOk, hc]
        · exact ih d h2

/-- A successful column-wide cast converts the cells pointwise. -/
theorem astypeIntCol_zip :
    ∀ {col : List Cell} {ns : List ℤ}, astypeIntCol col = .ok ns →
      ∀ q ∈ col.zip (ns.map Cell.cint), ∃ n, astypeIntCell q.1 = .ok n ∧ q.2 = .cint n := by
  intro col
  induction col with
  | nil => intro ns _ q hq; simp at hq
  | cons c cs ih =>
    intro ns h q hq
    unfold astypeIntCol at h
    cases hc : astypeIntCell c with
    | error e => rw [hc] at h; exact absurd h (by simp)
    | ok n =>
      rw [hc] at h
      cases hcs : astypeIntCol cs with
      | error e => rw [hcs] at h; exact absurd h (by simp)
      | ok ns' =>
        rw [hcs] at h
        cases Except.ok.inj h
        rcases List.mem_cons.mp hq with h1 | h2
        · subst h1; exact ⟨n, hc, rfl⟩
        · exact ih hcs q h2

/-- Pairs of a list zipped with its own map. -/
theorem mem_zip_map {α β : Type} (g : α → β) :
    ∀ {l : List α} {q : α × β}, q ∈ l.zip (l.map g) → q.2 = g q.1 := by
  intro l
  induction l with
  | nil => intro q hq; simp at hq
  | cons a l ih =>
    intro q hq
    rcases List.mem_cons.mp hq with h1 | h2
    · subst h1; rfl
    · exact ih h2

/-- The per-column transform preserves the column length. -/
theorem transformCol_length {n : String} {col col' : List Cell}
    (h : transformCol n col = .ok col') : col'.length = col.length := by
  unfold transformCol at h
  by_cases h1 : stringCols.contains n = true
  · rw [if_pos h1] at h
    cases Except.ok.inj h
    simp
  · rw [if_neg h1] at h
    by_cases h2 : n = "verified_purchase"
    · rw [if_pos h2] at h
      cases hm : astypeIntCol col with
      | error e => rw [hm] at h; exact absurd h (by simp)
      | ok ns =>
        rw [hm] at h
        cases Except.ok.inj h
        rw [List.length_map]
        clear h h2
        induction col generalizing ns with
        | nil => cases hm; rfl
        | cons c cs ih =>
          unfold astypeIntCol at hm
          cases hc : astypeIntCell c with
          | error e => rw [hc] at hm; exact absurd hm (by simp)
          | ok m =>
            rw [hc] at hm
            cases hcs : astypeIntCol cs with
            | error e => rw [hcs] at hm; exact absurd hm (by simp)
            | ok ns' =>
              rw [hcs] at hm
              cases Except.ok.inj hm
              simp [ih ns' hcs]
    · rw [if_neg h2] at h
      by_cases h3 : numericCols.contains n = true
      · rw [if_pos h3] at h
        cases Except.ok.inj h
        simp
      · rw [if_neg h3] at h
        cases Except.ok.inj h
        rfl

/-- The per-column transform fails exactly when the column is
`verified_purchase` and holds a cell the integer cast rejects. -/
theorem transformCol_ok_iff (n : String) (col : List Cell) :
    exOk (transformCol n col) = true ↔
      (n = "verified_purchase" → ∀ c ∈ col, exOk (astypeIntCell c) = true) := by
  unfold transformCol
  by_cases h1 : stringCols.contains n = true
  · rw [if_pos h1]
    have hne : n ≠ "verified_purchase" := by
      intro hn
      subst hn
      exact absurd h1 (by decide)
    simp [exOk, hne]
  · rw [if_neg h1]
    by_cases h2 : n = "verified_purchase"
    · rw [if_pos h2]
      cases hm : astypeIntCol col with
      | error e =>
        have := astypeIntCol_ok_iff col
        rw [hm] at this
        simp only [exOk, Bool.false_eq_true, false_iff] at this
        simp only [exOk, Bool.false_eq_true, false_iff]
        intro hall
        exact this (hall h2)
      | ok ns =>
        have := astypeIntCol_ok_iff col
        rw [hm] at this
        simp only [exOk, true_iff] at this
        simp only [exOk, true_iff]
        intro _
        exact this
    · rw [if_neg h2]
      by_cases h3 : numericCols.contains n = true
      · rw [if_pos h3]; simp [exOk, h2]
      · rw [if_neg h3]; simp [exOk, h2]

/-- String columns are rewritten cell by cell through
`fillna("").astype(str)`. -/
theorem transformCol_string {n : String} {col col' : List Cell}
    (hn : stringCols.contains n = true) (h : transformCol n col = .ok col') :
    col' = col.map fun c => .cstr (cellStr (fillnaEmptyStr c)) := by
  unfold transformCol at h
  rw [if_pos hn] at h
  exact (Except.ok.inj h).symm

/-- The `verified_purchase` column is rewritten through the
column-wide integer cast. -/
theorem transformCol_verified {col col' : List Cell}
    (h : transformCol "verified_purchase" col = .ok col') :
    ∃ ns, astypeIntCol col = .ok ns ∧ col' = ns.map Cell.cint := by
  unfold transformCol at h
  rw [if_neg (by decide), if_pos rfl] at h
  cases hm : astypeIntCol col with
  | error e => rw [hm] at h; exact absurd h (by simp)
  | ok ns =>
    rw [hm] at h
    exact ⟨ns, rfl, (Except.ok.inj h).symm⟩

/-- Numeric columns are rewritten cell by cell through
`pd.to_numeric(..., errors="coerce").fillna(0)`. -/
theorem transformCol_numeric {n : String} {col col' : List Cell}
    (hn : numericCols.contains n = true) (h : transformCol n col = .ok col') :
    col' = col.map toNumericFillZero := by
  have hmem : n ∈ numericCols := by
    simpa using hn
  unfold transformCol at h
  fin_cases hmem <;>
    · rw [if_neg (by decide), if_neg (by decide), if_pos (by decide)] at h
      exact (Except.ok.inj h).symm

/-- Elimination form of a successful `preprocess_dataframe`: the
output pairs with the input column by column. -/
theorem preprocessFrame_ok_elim :
    ∀ {df out : Frame}, preprocessFrame df = .ok out →
      out.length = df.length ∧
      ∀ p ∈ df.zip out, p.2.1 = p.1.1 ∧ transformCol p.1.1 p.1.2 = .ok p.2.2 := by
  intro df
  induction df with
  | nil =>
    intro out h
    cases Except.ok.inj h
    exact ⟨rfl, by simp⟩
  | cons c rest ih =>
    intro out h
    obtain ⟨n, col⟩ := c
    unfold preprocessFrame at h
    cases ht : transformCol n col with
    | error e => rw [ht] at h; exact absurd h (by simp)
    | ok col' =>
      rw [ht] at h
      cases hr : preprocessFrame rest with
      | error e => rw [hr] at h; exact absurd h (by simp)
      | ok rest' =>
        rw [hr] at h
        cases Except.ok.inj h
        obtain ⟨ihl, ihz⟩ := ih hr
        refine ⟨by simp [ihl], ?_⟩
        intro p hp
        rcases List.mem_cons.mp hp with h1 | h2
        · subst h1; exact ⟨rfl, ht⟩
        · exact ihz p h2

/-- `preprocess_dataframe` fails exactly when some `verified_purchase`
cell is not integer-convertible. -/
theorem preprocessFrame_ok_iff (df : Frame) :
    exOk (preprocessFrame df) = true ↔
      ∀ p ∈ df, p.1 = "verified_purchase" → ∀ c ∈ p.2, exOk (astypeIntCell c) = true := by
  induction df with
  | nil => simp [preprocessFrame, exOk]
  | cons c rest ih =>
    obtain ⟨n, col⟩ := c
    unfold preprocessFrame
    cases ht : transformCol n col with
    | error e =>
      simp only [exOk, Bool.false_eq_true, false_iff]
      intro hall
      have := (transformCol_ok_iff n col).mpr fun hn => hall (n, col) (List.mem_cons_self _ _) hn
      rw [ht] at this
      exact absurd this (by simp [exOk])
    | ok col' =>
      cases hr : preprocessFrame rest with
      | error e =>
        rw [hr] at ih
        simp only [exOk, Bool.false_eq_true, false_iff] at ih ⊢
        intro hall
        exact ih fun p hp => hall p (List.mem_cons_of_mem _ hp)
      | ok rest' =>
        rw [hr] at ih
        simp only [exOk, true_iff] at ih
        simp only [exOk, true_iff]
        intro p hp
        rcases List.mem_cons.mp hp with h1 | h2
        · subst h1
          intro hn
          exact (transformCol_ok_iff n col).mp (by rw [ht]; rfl) hn
        · exact ih p h2

/-- Preprocessing preserves the row count of a batch. -/
theorem preprocessFrame_rows {f pf : Frame} (h : preprocessFrame f = .ok pf) :
    frameRows pf = frameRows f := by
  cases f with
  | nil => cases Except.ok.inj h; rfl
  | cons c rest =>
    obtain ⟨n, col⟩ := c
    unfold preprocessFrame at h
    cases ht : transformCol n col with
    | error e => rw [ht] at h; exact absurd h (by simp)
    | ok col' =>
      rw [ht] at h
      cases hr : preprocessFrame rest with
      | error e => rw [hr] at h; exact absurd h (by simp)
      | ok rest' =>
        rw [hr] at h
        cases Except.ok.inj h
        show col'.length = col.length
        exact transformCol_length ht

/-- `preprocessedOf` agrees with a successful `preprocessFrame`. -/
theorem preprocessedOf_eq {f pf : Frame} (h : preprocessFrame f = .ok pf) :
    preprocessedOf f = pf := by
  unfold preprocessedOf
  rw [h]

/-- The orchestrator loop on a batch list whose first `pre.length`
batches preprocess and insert successfully and whose next insert
fails: it commits exactly the earlier batches, submits nothing after
the failing batch, and aborts with the failing batch's index and row
count. -/
theorem ingestGo_fail_spec (insertOk : ℕ → Bool) (b : Frame) (post : List Frame) :
    ∀ (pre : List Frame) (cnt sub rows : ℕ) (sink : List Frame),
      (∀ f ∈ pre, exOk (preprocessFrame f) = true) →
      exOk (preprocessFrame b) = true →
      (∀ j, j < pre.length → insertOk (cnt + j + 1) = true) →
      insertOk (cnt + pre.length + 1) = false →
      ingestGo insertOk (pre ++ b :: post) cnt sub rows sink =
        ⟨sink ++ pre.map preprocessedOf, sub + pre.length + 1,
          .error (cnt + pre.length + 1, frameRows b)⟩ := by
  intro pre
  induction pre with
  | nil =>
    intro cnt sub rows sink _ hb hok hfail
    obtain ⟨pb, hpb⟩ := exOk_iff_exists.mp hb
    show ingestGo insertOk (b :: post) cnt sub rows sink = _
    simp only [ingestGo, hpb]
    rw [show cnt + List.length ([] : List Frame) + 1 = cnt + 1 by simp] at hfail
    rw [hfail]
    simp only [Bool.false_eq_true, if_false, List.map_nil, List.append_nil,
      List.length_nil]
    rw [preprocessFrame_rows hpb]
  | cons f pre ih =>
    intro cnt sub rows sink hpre hb hok hfail
    obtain ⟨pf, hpf⟩ := exOk_iff_exists.mp (hpre f (List.mem_cons_self _ _))
    show ingestGo insertOk (f :: (pre ++ b :: post)) cnt sub rows sink = _
    simp only [ingestGo, hpf]
    have h0 : insertOk (cnt + 1) = true := hok 0 (by simp)
    rw [h0]
    simp only [if_true]
    have hih := ih (cnt + 1) (sub + 1) (rows + frameRows pf) (sink ++ [pf])
      (fun g hg => hpre g (List.mem_cons_of_mem _ hg))
      hb
      (fun j hj => by
        have he : cnt + 1 + j + 1 = cnt + (j + 1) + 1 := by omega
        rw [he]
        exact hok (j + 1) (by simp; omega))
      (by
        have he : cnt + 1 + pre.length + 1 = cnt + (f :: pre).length + 1 := by
          simp; omega
        rw [he]
        exact hfail)
    rw [hih]
    have hmap : (sink ++ [pf]) ++ pre.map preprocessedOf =
        sink ++ (f :: pre).map preprocessedOf := by
      rw [List.map_cons, preprocessedOf_eq hpf, List.append_assoc, List.singleton_append]
    rw [hmap]
    have hsub : sub + 1 + pre.length + 1 = sub + (f :: pre).length + 1 := by
      simp; omega
    have hcnt : cnt + 1 + pre.length + 1 = cnt + (f :: pre).length + 1 := by
      simp; omega
    rw [hsub, hcnt]

/-! ## Claims -/

/-- Claim C1: the spec asserts that `clean_and_flatten_record` is total
(never raises).  The code intends this — the numeric coercions sit in
`try`/`except (ValueError, TypeError)` blocks — but `float(n)` raises
an uncaught `OverflowError` on an integer rating too large for a
double, so a JSON-decodable record such as `{"overall": 10**400}`
escapes the handler and the claim's totality fails on the code as
written (a slip in the caught exception tuple, not in the spec).  This
theorem evaluates the embedded normalizer at that failing input. -/
theorem clean_raises_uncaught_overflow :
    cleanAndFlattenRecord [("overall", .vint (10 ^ 400))] = .error .overflowError := rfl

/-- Claim C2: writing `N` records in chunks of size `C ≥ 1` produces
exactly `⌈N/C⌉` groups, the total row count across groups is `N`, the
header is written on the first group only, and every later group is
appended (opened in append mode) without re-declaring the header. -/
theorem chunked_writer_groups (rs : List NormalizedRecord) (C : ℕ) (hC : 1 ≤ C) :
    (writeChunks rs C).length = (rs.length + (C - 1)) / C ∧
    ((writeChunks rs C).map fun e => e.rows.length).sum = rs.length ∧
    ∀ (i : ℕ) (e : WriteEvent NormalizedRecord),
      (writeChunks rs C)[i]? = some e → e.header = (i == 0) ∧ e.append = (i != 0) := by
  unfold writeChunks
  refine ⟨?_, ?_, ?_⟩
  · have h := writeChunksGo_length hC rs [] 0
      (by simpa using Nat.lt_of_lt_of_le Nat.zero_lt_one hC)
    simpa using h
  · have h := writeChunksGo_sum C rs [] 0
    simpa using h
  · intro i e h
    obtain ⟨h1, h2⟩ := writeChunksGo_getElem C rs [] 0 i e h
    constructor
    · rw [h1, Nat.zero_add]
    · rw [h2, Nat.zero_add]
      cases i <;> simp

/-- Witness for C2 at three records and chunk size 2. -/
theorem chunked_writer_groups_witness :
    1 ≤ 2 ∧
    ((writeChunks [sampleRecord, sampleRecord, sampleRecord] 2).length =
        ([sampleRecord, sampleRecord, sampleRecord].length + (2 - 1)) / 2 ∧
      ((writeChunks [sampleRecord, sampleRecord, sampleRecord] 2).map
          fun e => e.rows.length).sum =
        [sampleRecord, sampleRecord, sampleRecord].length ∧
      ∀ (i : ℕ) (e : WriteEvent NormalizedRecord),
        (writeChunks [sampleRecord, sampleRecord, sampleRecord] 2)[i]? = some e →
        e.header = (i == 0) ∧ e.append = (i != 0)) :=
  ⟨by decide, chunked_writer_groups [sampleRecord, sampleRecord, sampleRecord] 2 (by decide)⟩

/-- Claim C3: the normalized `verified` field is `true` iff the raw
value's lowercased string form is exactly `"true"`, `"1"` or `"yes"`,
and it is `false` when the field is absent (the absent case goes
through the empty-string default, whose string form is `""`). -/
theorem verified_flag_iff (r : RawRecord) (nr : NormalizedRecord)
    (h : cleanAndFlattenRecord r = .ok nr) :
    (∀ v : Value, r.lookup "verified" = some v →
      (nr.verified = true ↔ pyLower (pyStr v) ∈ verifiedTruthySet)) ∧
    (r.lookup "verified" = none → nr.verified = false) := by
  obtain ⟨ov, ux, _, _, hnr⟩ := clean_ok_elim h
  subst hnr
  constructor
  · intro v hv
    show verifiedTruthySet.contains (pyLower (pyStr (getField r "verified"))) = true ↔ _
    unfold getField
    rw [hv]
    show verifiedTruthySet.contains (pyLower (pyStr v)) = true ↔ _
    simp [List.contains_iff_exists_mem_beq, beq_iff_eq]
  · intro hnone
    show verifiedTruthySet.contains (pyLower (pyStr (getField r "verified"))) = false
    unfold getField
    rw [hnone]
    rfl

/-- Witness for C3 at the record `{"verified": "TRUE"}`. -/
theorem verified_flag_iff_witness :
    cleanAndFlattenRecord [("verified", Value.vstr "TRUE")] =
      .ok (cleanFields [("verified", Value.vstr "TRUE")] (.finite 0) 0) ∧
    ((cleanFields [("verified", Value.vstr "TRUE")] (.finite 0) 0).verified = true ↔
      pyLower (pyStr (.vstr "TRUE")) ∈ verifiedTruthySet) :=
  ⟨rfl, (verified_flag_iff [("verified", Value.vstr "TRUE")]
    (cleanFields [("verified", Value.vstr "TRUE")] (.finite 0) 0) rfl).1 _ rfl⟩

/-- Claim C5: a record missing an allow-listed field receives that
field's type-correct default: empty string for the string-typed
outputs (`reviewTime`, `reviewerID`, `asin`, `style`, `reviewerName`,
`reviewText`, `summary`, `images`, `vote`), `0.0` for the rating, `0`
for the epoch time, and `false` for `verified`. -/
theorem missing_fields_default (r : RawRecord) (nr : NormalizedRecord)
    (h : cleanAndFlattenRecord r = .ok nr) :
    (r.lookup "reviewTime" = none → nr.reviewTime = .vstr "") ∧
    (r.lookup "reviewerID" = none → nr.reviewerID = .vstr "") ∧
    (r.lookup "asin" = none → nr.asin = .vstr "") ∧
    (r.lookup "style" = none → nr.style = .vstr "") ∧
    (r.lookup "reviewerName" = none → nr.reviewerName = .vstr "") ∧
    (r.lookup "reviewText" = none → nr.reviewText = .vstr "") ∧
    (r.lookup "summary" = none → nr.summary = .vstr "") ∧
    (r.lookup "images" = none → nr.images = "") ∧
    (r.lookup "vote" = none → nr.vote = "") ∧
    (r.lookup "overall" = none → nr.overall = .finite 0) ∧
    (r.lookup "unixReviewTime" = none → nr.unixReviewTime = 0) ∧
    (r.lookup "verified" = none → nr.verified = false) := by
  obtain ⟨ov, ux, h1, h2, hnr⟩ := clean_ok_elim h
  subst hnr
  refine ⟨?_, ?_, ?_, ?_, ?_, ?_, ?_, ?_, ?_, ?_, ?_, ?_⟩
  · intro hnone
    show getField r "reviewTime" = .vstr ""
    unfold getField; rw [hnone]; rfl
  · intro hnone
    show getField r "reviewerID" = .vstr ""
    unfold getField; rw [hnone]; rfl
  · intro hnone
    show getField r "asin" = .vstr ""
    unfold getField; rw [hnone]; rfl
  · intro hnone
    show getField r "style" = .vstr ""
    unfold getField; rw [hnone]; rfl
  · intro hnone
    show cleanTextValue (getField r "reviewerName") = .vstr ""
    unfold getField; rw [hnone]; rfl
  · intro hnone
    show cleanTextValue (getField r "reviewText") = .vstr ""
    unfold getField; rw [hnone]; rfl
  · intro hnone
    show cleanTextValue (getField r "summary") = .vstr ""
    unfold getField; rw [hnone]; rfl
  · intro hnone
    show imagesField r = ""
    unfold imagesField; rw [hnone]; rfl
  · intro hnone
    show voteField r = ""
    unfold voteField getField; rw [hnone]; rfl
  · intro hnone
    show ov = PFloat.finite 0
    exact Except.ok.inj (h1.symm.trans (overallStep_default hnone))
  · intro hnone
    show ux = 0
    exact Except.ok.inj (h2.symm.trans (unixStep_default hnone))
  · intro hnone
    show verifiedTruthySet.contains (pyLower (pyStr (getField r "verified"))) = false
    unfold getField; rw [hnone]; rfl

/-- Witness for C5 at the empty record. -/
theorem missing_fields_default_witness :
    cleanAndFlattenRecord ([] : RawRecord) = .ok (cleanFields [] (.finite 0) 0) ∧
    (cleanFields ([] : RawRecord) (.finite 0) 0).reviewTime = .vstr "" ∧
    (cleanFields ([] : RawRecord) (.finite 0) 0).images = "" ∧
    (cleanFields ([] : RawRecord) (.finite 0) 0).overall = .finite 0 ∧
    (cleanFields ([] : RawRecord) (.finite 0) 0).unixReviewTime = 0 ∧
    (cleanFields ([] : RawRecord) (.finite 0) 0).verified = false := by
  obtain ⟨h1, h2, h3, h4, h5, h6, h7, h8, h9, h10, h11, h12⟩ :=
    missing_fields_default ([] : RawRecord) (cleanFields [] (.finite 0) 0) rfl
  exact ⟨rfl, h1 rfl, h8 rfl, h10 rfl, h11 rfl, h12 rfl⟩

/-- Claim C6: the reader skips blank lines, logs-and-skips exactly the
undecodable non-blank lines, never aborts, and yields exactly the
decoded records of the well-formed non-blank lines in input order. -/
theorem reader_skip_and_continue (decode : String → Option RawRecord)
    (lines : List String) :
    (readJsonlLoop decode lines).1 =
      ((lines.map pyStrip).filter fun s => s != "").filterMap decode ∧
    (readJsonlLoop decode lines).2 =
      (((lines.map pyStrip).filter fun s => s != "").filter
        fun s => (decode s).isNone).length := by
  have h := readJsonlLoop_eq decode lines
  exact ⟨congrArg Prod.fst h, congrArg Prod.snd h⟩

/-- Claim C4: for every raw record and text field (`reviewerName`,
`reviewText`, `summary`) whose raw string value contains a newline, a
carriage return, or a run of 2+ spaces, the normalized value is a
string with no newline, no carriage return, and no run of 2+
spaces. -/
theorem text_fields_sanitized (r : RawRecord) (nr : NormalizedRecord) (s : String)
    (h : cleanAndFlattenRecord r = .ok nr)
    (hbad : '\n' ∈ s.data ∨ '\r' ∈ s.data ∨ hasDoubleSpace s.data = true) :
    (r.lookup "reviewerName" = some (.vstr s) →
      ∃ t : String, nr.reviewerName = .vstr t ∧
        '\n' ∉ t.data ∧ '\r' ∉ t.data ∧ hasDoubleSpace t.data = false) ∧
    (r.lookup "reviewText" = some (.vstr s) →
      ∃ t : String, nr.reviewText = .vstr t ∧
        '\n' ∉ t.data ∧ '\r' ∉ t.data ∧ hasDoubleSpace t.data = false) ∧
    (r.lookup "summary" = some (.vstr s) →
      ∃ t : String, nr.summary = .vstr t ∧
        '\n' ∉ t.data ∧ '\r' ∉ t.data ∧ hasDoubleSpace t.data = false) := by
  obtain ⟨ov, ux, _, _, hnr⟩ := clean_ok_elim h
  subst hnr
  have hs : s ≠ "" := by
    intro he
    subst he
    rcases hbad with hb | hb | hb <;> exact absurd hb (by decide)
  have hctv : cleanTextValue (.vstr s) = .vstr (cleanText s) := by
    unfold cleanTextValue
    have ht : truthy (.vstr s) = true := by
      show (s != "") = true
      exact bne_iff_ne.mpr hs
    rw [ht]
    rfl
  obtain ⟨hall, hds, _, _⟩ := cleanText_shape s
  have hnl : '\n' ∉ (cleanText s).data := fun hm => absurd (hall _ hm (by decide)) (by decide)
  have hcr : '\r' ∉ (cleanText s).data := fun hm => absurd (hall _ hm (by decide)) (by decide)
  refine ⟨fun hf => ⟨cleanText s, ?_, hnl, hcr, hds⟩,
    fun hf => ⟨cleanText s, ?_, hnl, hcr, hds⟩,
    fun hf => ⟨cleanText s, ?_, hnl, hcr, hds⟩⟩
  · show cleanTextValue (getField r "reviewerName") = .vstr (cleanText s)
    unfold getField; rw [hf]; exact hctv
  · show cleanTextValue (getField r "reviewText") = .vstr (cleanText s)
    unfold getField; rw [hf]; exact hctv
  · show cleanTextValue (getField r "summary") = .vstr (cleanText s)
    unfold getField; rw [hf]; exact hctv

/-- Witness for C4 at `{"reviewText": "Great\nproduct"}`. -/
theorem text_fields_sanitized_witness :
    cleanAndFlattenRecord [("reviewText", Value.vstr "Great\nproduct")] =
      .ok (cleanFields [("reviewText", Value.vstr "Great\nproduct")] (.finite 0) 0) ∧
    ('\n' ∈ "Great\nproduct".data ∨ '\r' ∈ "Great\nproduct".data ∨
      hasDoubleSpace "Great\nproduct".data = true) ∧
    ∃ t : String,
      (cleanFields [("reviewText", Value.vstr "Great\nproduct")] (.finite 0) 0).reviewText =
        .vstr t ∧
      '\n' ∉ t.data ∧ '\r' ∉ t.data ∧ hasDoubleSpace t.data = false :=
  ⟨rfl, by decide,
    (text_fields_sanitized [("reviewText", Value.vstr "Great\nproduct")]
      (cleanFields [("reviewText", Value.vstr "Great\nproduct")] (.finite 0) 0)
      "Great\nproduct" rfl (by decide)).2.1 rfl⟩

/-- Claim C9: in addition to C4, each cleaned free-text field has no
leading or trailing whitespace, every whitespace character in it is a
single plain space (tabs, form feeds etc. are collapsed too), and an
all-whitespace raw value normalizes to the empty string. -/
theorem text_fields_ws_normalized (r : RawRecord) (nr : NormalizedRecord) (s : String)
    (h : cleanAndFlattenRecord r = .ok nr) :
    (r.lookup "reviewerName" = some (.vstr s) →
      ∃ t : String, nr.reviewerName = .vstr t ∧
        (∀ c ∈ t.data, isPySpace c = true → c = ' ') ∧
        hasDoubleSpace t.data = false ∧
        t.data.head? ≠ some ' ' ∧ t.data.getLast? ≠ some ' ' ∧
        ((∀ c ∈ s.data, isPySpace c = true) → t = "")) ∧
    (r.lookup "reviewText" = some (.vstr s) →
      ∃ t : String, nr.reviewText = .vstr t ∧
        (∀ c ∈ t.data, isPySpace c = true → c = ' ') ∧
        hasDoubleSpace t.data = false ∧
        t.data.head? ≠ some ' ' ∧ t.data.getLast? ≠ some ' ' ∧
        ((∀ c ∈ s.data, isPySpace c = true) → t = "")) ∧
    (r.lookup "summary" = some (.vstr s) →
      ∃ t : String, nr.summary = .vstr t ∧
        (∀ c ∈ t.data, isPySpace c = true → c = ' ') ∧
        hasDoubleSpace t.data = false ∧
        t.data.head? ≠ some ' ' ∧ t.data.getLast? ≠ some ' ' ∧
        ((∀ c ∈ s.data, isPySpace c = true) → t = "")) := by
  obtain ⟨ov, ux, _, _, hnr⟩ := clean_ok_elim h
  subst hnr
  by_cases hs : s = ""
  · subst hs
    have hout : cleanTextValue (.vstr "") = .vstr "" := rfl
    have hprops : (∀ c ∈ ("" : String).data, isPySpace c = true → c = ' ') ∧
        hasDoubleSpace ("" : String).data = false ∧
        ("" : String).data.head? ≠ some ' ' ∧ ("" : String).data.getLast? ≠ some ' ' := by
      refine ⟨by simp, rfl, by simp, by simp⟩
    refine ⟨fun hf => ⟨"", ?_, hprops.1, hprops.2.1, hprops.2.2.1, hprops.2.2.2, fun _ => rfl⟩,
      fun hf => ⟨"", ?_, hprops.1, hprops.2.1, hprops.2.2.1, hprops.2.2.2, fun _ => rfl⟩,
      fun hf => ⟨"", ?_, hprops.1, hprops.2.1, hprops.2.2.1, hprops.2.2.2, fun _ => rfl⟩⟩
    · show cleanTextValue (getField r "reviewerName") = .vstr ""
      unfold getField; rw [hf]; rfl
    · show cleanTextValue (getField r "reviewText") = .vstr ""
      unfold getField; rw [hf]; rfl
    · show cleanTextValue (getField r "summary") = .vstr ""
      unfold getField; rw [hf]; rfl
  · have hctv : cleanTextValue (.vstr s) = .vstr (cleanText s) := by
      unfold cleanTextValue
      have ht : truthy (.vstr s) = true := by
        show (s != "") = true
        exact bne_iff_ne.mpr hs
      rw [ht]
      rfl
    obtain ⟨hall, hds, hhd, hlast⟩ := cleanText_shape s
    have hempty : (∀ c ∈ s.data, isPySpace c = true) → cleanText s = "" :=
      fun ha => cleanText_all_space ha
    refine ⟨fun hf => ⟨cleanText s, ?_, hall, hds, hhd, hlast, hempty⟩,
      fun hf => ⟨cleanText s, ?_, hall, hds, hhd, hlast, hempty⟩,
      fun hf => ⟨cleanText s, ?_, hall, hds, hhd, hlast, hempty⟩⟩
    · show cleanTextValue (getField r "reviewerName") = .vstr (cleanText s)
      unfold getField; rw [hf]; exact hctv
    · show cleanTextValue (getField r "reviewText") = .vstr (cleanText s)
      unfold getField; rw [hf]; exact hctv
    · show cleanTextValue (getField r "summary") = .vstr (cleanText s)
      unfold getField; rw [hf]; exact hctv

/-- Witness for C9 at `{"summary": " \t "}` (an all-whitespace
value normalizing to the empty string). -/
theorem text_fields_ws_normalized_witness :
    cleanAndFlattenRecord [("summary", Value.vstr " \t ")] =
      .ok (cleanFields [("summary", Value.vstr " \t ")] (.finite 0) 0) ∧
    ∃ t : String,
      (cleanFields [("summary", Value.vstr " \t ")] (.finite 0) 0).summary = .vstr t ∧
      (∀ c ∈ t.data, isPySpace c = true → c = ' ') ∧
      hasDoubleSpace t.data = false ∧
      t.data.head? ≠ some ' ' ∧ t.data.getLast? ≠ some ' ' ∧
      ((∀ c ∈ (" \t " : String).data, isPySpace c = true) → t = "") :=
  ⟨rfl,
    (text_fields_ws_normalized [("summary", Value.vstr " \t ")]
      (cleanFields [("summary", Value.vstr " \t ")] (.finite 0) 0)
      " \t " rfl).2.2 rfl⟩

/-- Claim C7: when the sink insert of batch `pre.length + 1` fails
(after `pre.length` successful batches), the orchestrator logs that
batch's index and row count, aborts with the error propagated, submits
no later batch, and the preprocessed rows of the strictly earlier
batches remain committed in the sink. -/
theorem ingest_abort_on_insert_failure (insertOk : ℕ → Bool)
    (pre post : List Frame) (b : Frame)
    (hpre : ∀ f ∈ pre, exOk (preprocessFrame f) = true)
    (hb : exOk (preprocessFrame b) = true)
    (hok : ∀ j, j < pre.length → insertOk (j + 1) = true)
    (hfail : insertOk (pre.length + 1) = false) :
    ingestData insertOk (pre ++ b :: post) =
      ⟨pre.map preprocessedOf, pre.length + 1,
        .error (pre.length + 1, frameRows b)⟩ := by
  unfold ingestData
  have h := ingestGo_fail_spec insertOk b post pre 0 0 0 [] hpre hb
    (fun j hj => by simpa using hok j hj) (by simpa using hfail)
  simpa using h

/-- Witness for C7: three one-row batches, insert succeeds only on
batch 1 and fails on batch 2; batch 3 is never submitted. -/
theorem ingest_abort_on_insert_failure_witness :
    (∀ f ∈ [[("rating", [Cell.cint 5])]], exOk (preprocessFrame f) = true) ∧
    exOk (preprocessFrame [("rating", [Cell.cint 3])]) = true ∧
    (∀ j, j < [[("rating", [Cell.cint 5])]].length → ((j + 1 : ℕ) == 1) = true) ∧
    (([[("rating", [Cell.cint 5])]].length + 1 : ℕ) == 1) = false ∧
    ingestData (fun n => n == 1)
        ([[("rating", [Cell.cint 5])]] ++
          [("rating", [Cell.cint 3])] :: [[("rating", [Cell.cint 2])]]) =
      ⟨[[("rating", [Cell.cint 5])]].map preprocessedOf,
        [[("rating", [Cell.cint 5])]].length + 1,
        .error ([[("rating", [Cell.cint 5])]].length + 1,
          frameRows [("rating", [Cell.cint 3])])⟩ := by
  refine ⟨by decide, by decide, by decide, by decide, ?_⟩
  exact ingest_abort_on_insert_failure (fun n => n == 1)
    [[("rating", [Cell.cint 5])]] [[("rating", [Cell.cint 2])]]
    [("rating", [Cell.cint 3])] (by decide) (by decide) (by decide) (by decide)

/-- Counterexample to claim C8 as stated: the re-cast step is not
total — a batch whose `verified_purchase` column holds a missing value
(`NaN`) makes `astype(int)` raise (`pandas`: "Cannot convert
non-finite values (NA or inf) to integer"), so `preprocess_dataframe`
fails on that batch content. -/
theorem preprocess_nan_verified_raises :
    preprocessFrame [("verified_purchase", [Cell.cnan])] = .error .valueError := rfl

/-- Claim C8 (amended): the re-cast step substitutes the empty string
for nulls in the string columns, casts boolean `verified_purchase`
values to 0/1 integers, and coerces the numeric columns with
unparsable values defaulting to 0; the step succeeds exactly when
every `verified_purchase` cell is integer-convertible (rather than on
arbitrary batch content, as the unamended claim asserted). -/
theorem preprocess_recast_spec (df : Frame) :
    (exOk (preprocessFrame df) = true ↔
      ∀ p ∈ df, p.1 = "verified_purchase" →
        ∀ c ∈ p.2, exOk (astypeIntCell c) = true) ∧
    ∀ out, preprocessFrame df = .ok out →
      out.length = df.length ∧
      ∀ p ∈ df.zip out,
        p.2.1 = p.1.1 ∧
        (p.1.1 ∈ stringCols →
          ∀ q ∈ p.1.2.zip p.2.2,
            (q.1 = .cnan → q.2 = .cstr "") ∧
            (∀ s, q.1 = .cstr s → q.2 = .cstr s)) ∧
        (p.1.1 = "verified_purchase" →
          ∀ q ∈ p.1.2.zip p.2.2, ∀ bb, q.1 = .cbool bb →
            q.2 = .cint (if bb then 1 else 0)) ∧
        (p.1.1 ∈ numericCols →
          ∀ q ∈ p.1.2.zip p.2.2,
            (q.1 = .cnan → q.2 = .cint 0) ∧
            (∀ n : ℤ, q.1 = .cint n → q.2 = .cint n) ∧
            (∀ s, q.1 = .cstr s → parseIntStr s = none → parseFloatStr s = none →
              q.2 = .cint 0)) := by
  refine ⟨preprocessFrame_ok_iff df, ?_⟩
  intro out hout
  obtain ⟨hlen, hzip⟩ := preprocessFrame_ok_elim hout
  refine ⟨hlen, ?_⟩
  intro p hp
  obtain ⟨hname, htc⟩ := hzip p hp
  refine ⟨hname, ?_, ?_, ?_⟩
  · intro hmem q hq
    have hcol := transformCol_string (List.elem_eq_true_of_mem hmem) htc
    rw [hcol] at hq
    have h2 := mem_zip_map _ hq
    refine ⟨fun hnan => ?_, fun s hstr => ?_⟩
    · rw [h2, hnan]
      rfl
    · rw [h2, hstr]
      rfl
  · intro hvp q hq bb hbb
    rw [hvp] at htc
    obtain ⟨ns, hns, hcol⟩ := transformCol_verified htc
    rw [hcol] at hq
    obtain ⟨n, hcell, hq2⟩ := astypeIntCol_zip hns q hq
    rw [hbb] at hcell
    have hcell' : Except.ok (ε := PyErr) (if bb then (1 : ℤ) else 0) = .ok n := hcell
    rw [hq2, (Except.ok.inj hcell').symm]
  · intro hmem q hq
    have hcol := transformCol_numeric (List.elem_eq_true_of_mem hmem) htc
    rw [hcol] at hq
    have h2 := mem_zip_map _ hq
    refine ⟨fun hnan => ?_, fun n hint => ?_, fun s hstr hpi hpf => ?_⟩
    · rw [h2, hnan]
      rfl
    · rw [h2, hint]
      rfl
    · rw [h2, hstr]
      simp [toNumericFillZero, toNumericCoerce, hpi, hpf]

/-- Witness for C8 at a batch with a null string cell, a boolean
`verified_purchase` cell and an unparsable `rating` cell. -/
theorem preprocess_recast_spec_witness :
    exOk (preprocessFrame [("title", [Cell.cnan]),
      ("verified_purchase", [Cell.cbool true]), ("rating", [Cell.cstr "x"])]) = true ∧
    ([("title", [Cell.cstr ""]), ("verified_purchase", [Cell.cint 1]),
        ("rating", [Cell.cint 0])] : Frame).length =
      ([("title", [Cell.cnan]), ("verified_purchase", [Cell.cbool true]),
        ("rating", [Cell.cstr "x"])] : Frame).length := by
  refine ⟨(preprocess_recast_spec _).1.mpr (by decide), ?_⟩
  exact ((preprocess_recast_spec [("title", [Cell.cnan]),
    ("verified_purchase", [Cell.cbool true]), ("rating", [Cell.cstr "x"])]).2
    [("title", [Cell.cstr ""]), ("verified_purchase", [Cell.cint 1]),
      ("rating", [Cell.cint 0])] rfl).1

/-- Claim C10: when every input line is blank or undecodable, the
converter performs no write at all (no `to_csv` call, hence no output
file and no header), returns a total record count of 0, and the CLI
entry point reports success (exit code 0). -/
theorem empty_input_no_write (decode : String → Option RawRecord)
    (lines : List String) (C : ℕ)
    (h : ∀ l ∈ lines, pyStrip l = "" ∨ decode (pyStrip l) = none) :
    convertJsonlToCsv decode lines C = .ok ([], 0) ∧
    mainModel true decode lines C = 0 := by
  have hrec : (readJsonlLoop decode lines).1 = [] := by
    rw [readJsonlLoop_eq]
    show ((lines.map pyStrip).filter fun s => s != "").filterMap decode = []
    rw [List.filterMap_eq_nil_iff]
    intro s hs
    rcases List.mem_filter.mp hs with ⟨hmem, hne⟩
    rcases List.mem_map.mp hmem with ⟨l, hl, hsl⟩
    subst hsl
    rcases h l hl with h1 | h1
    · rw [h1] at hne
      exact absurd hne (by decide)
    · exact h1
  constructor
  · unfold convertJsonlToCsv
    rw [hrec]
    rfl
  · unfold mainModel convertJsonlToCsv
    rw [hrec]
    rfl

/-- Witness for C10: an empty line, a whitespace line and a malformed
line, with a decoder rejecting everything. -/
theorem empty_input_no_write_witness :
    (∀ l ∈ ["", "   ", "not json"], pyStrip l = "" ∨
      (fun _ : String => (none : Option RawRecord)) (pyStrip l) = none) ∧
    convertJsonlToCsv (fun _ => none) ["", "   ", "not json"] 100000 = .ok ([], 0) ∧
    mainModel true (fun _ => none) ["", "   ", "not json"] 100000 = 0 :=
  ⟨fun l _ => Or.inr rfl,
    (empty_input_no_write (fun _ => none) ["", "   ", "not json"] 100000
      fun l _ => Or.inr rfl).1,
    (empty_input_no_write (fun _ => none) ["", "   ", "not json"] 100000
      fun l _ => Or.inr rfl).2⟩

end ETL
